import Mathlib

/- Verification of the postcode-territory classifier in src/main.ts.

   Strings are modelled as lists of characters (`Str`).  The CSV loader,
   the token compiler, the three-tier classifier of the click handler
   (lines 314-319) and the MapLibre style expression builders
   (lines 210-294) are translated into executable Lean definitions, and
   the behavioural claims about them are settled below. -/

/-- Character-list model of JavaScript strings. -/
abbrev Str := List Char

/-- Conversion from a Lean string literal to the character-list model. -/
def st (s : String) : Str := s.data

/-- Characters removed by JavaScript's String.prototype.trim as relevant
    to this app's data: ASCII whitespace, NBSP and the BOM/ZWNBSP (the
    ECMAScript WhiteSpace/LineTerminator sets restricted to characters
    that can occur in this app's ASCII-plus-BOM inputs). -/
def isJsWs (ch : Char) : Bool :=
  ch = ' ' || ch = '\t' || ch = '\n' || ch = '\r' ||
  ch = '\x0b' || ch = '\x0c' || ch = '\u00A0' || ch = '\uFEFF'

/-- JavaScript `s.trim()`. -/
def jsTrim (s : Str) : Str :=
  ((s.dropWhile isJsWs).reverse.dropWhile isJsWs).reverse

/-- JavaScript `s.toUpperCase()` (ASCII; the app's codes are ASCII). -/
def upperStr (s : Str) : Str := s.map Char.toUpper

/-- JavaScript `s.toLowerCase()` (ASCII). -/
def lowerStr (s : Str) : Str := s.map Char.toLower

/-- JavaScript `s.split(sep)` for a single-character separator. -/
def splitOnChar (sep : Char) : Str → List Str
  | [] => [[]]
  | c :: rest =>
    if c = sep then [] :: splitOnChar sep rest
    else
      match splitOnChar sep rest with
      | [] => [[c]]
      | h :: t => (c :: h) :: t

/-- Strip one trailing carriage return, so that splitting on a newline
    models `text.split(CR-optional newline)` (main.ts line 100). -/
def dropCR (l : Str) : Str :=
  if l.getLast? = some '\r' then l.dropLast else l

/-- `text.split(CR-optional newline)` of main.ts line 100. -/
def splitLines (text : Str) : List Str :=
  (splitOnChar '\n' text).map dropCR

/-- Lines remaining after `.filter(Boolean)` (main.ts line 100). -/
def nonemptyLines (text : Str) : List Str :=
  (splitLines text).filter (fun l => l ≠ [])

/-- JavaScript `parts.join(',')`. -/
def joinComma (ls : List Str) : Str := List.intercalate [','] ls

/-- JavaScript `s.lastIndexOf(ch)` (main.ts line 159), as an `Option`
    (`none` models -1). -/
def lastIdxOf (ch : Char) (s : Str) : Option Nat :=
  ((s.enum.filter (fun pr => pr.2 = ch)).map (fun pr => pr.1)).getLast?

/-- JavaScript `cols.indexOf(n)` (main.ts line 108), as an `Option`
    (`none` models -1). -/
def firstIdx (x : Str) : List Str → Option Nat
  | [] => none
  | y :: ys => if y = x then some 0 else (firstIdx x ys).map (· + 1)

/-- The alias resolver `idx` of main.ts lines 107-108: the index in
    `cols` of the first alias that is present. -/
def idx (cols names : List Str) : Option Nat :=
  names.findSome? (fun n => firstIdx n cols)

/-- The quote-stripping `pfxRaw.replace(^"(.*)"$, '$1')` of main.ts
    line 174: remove one pair of wrapping double quotes when present.
    (The regex dot does not match line terminators, which cannot occur
    here because the field comes from an already line-split row.) -/
def stripQuotes (s : Str) : Str :=
  match s with
  | '"' :: rest => if rest.getLast? = some '"' then rest.dropLast else s
  | _ => s

/-- Numeric value of a digit string. -/
def digitsVal (l : Str) : ℕ :=
  l.foldl (fun a c => 10 * a + (c.toNat - 48)) 0

/-- Decimal fragment of ECMAScript string-to-number: digits with an
    optional fraction part.  Returns `none` (NaN) otherwise. -/
def parseUnsignedJs (u : Str) : Option ℚ :=
  let ds := u.takeWhile Char.isDigit
  match u.dropWhile Char.isDigit with
  | [] => if ds = [] then none else some (digitsVal ds)
  | '.' :: fs =>
    if fs.all Char.isDigit then
      if ds = [] ∧ fs = [] then none
      else some ((digitsVal ds : ℚ) + (digitsVal fs : ℚ) / ((10 : ℚ) ^ fs.length))
    else none
  | _ => none

/-- JavaScript `Number(s)` on strings as used by main.ts line 189:
    trimmed empty input is 0, otherwise an optionally signed decimal
    literal; every other input is NaN, modelled as `none`.  (Exponent,
    hex and Infinity forms never occur in the app's data and are also
    mapped to `none`.) -/
def jsNumber (s : Str) : Option ℚ :=
  match jsTrim s with
  | [] => some 0
  | '-' :: u => (parseUnsignedJs u).map (fun q => -q)
  | '+' :: u => parseUnsignedJs u
  | t => parseUnsignedJs t

/-- The constant `LETTERS` of main.ts line 33. -/
def LETTERSl : Str := st "ABCDEFGHIJKLMNOPQRSTUVWXYZ"

/-- The constant `AtoZ = LETTERS.split('')` of main.ts line 34: the
    single-character strings. -/
def AtoZ : List Str := LETTERSl.map (fun ch => [ch])

/-- The colour palette of main.ts lines 203-206. -/
def palette : List Str :=
  [st "#4e79a7", st "#f28e2b", st "#e15759", st "#76b7b2", st "#59a14f",
   st "#edc948", st "#b07aa1", st "#ff9da7", st "#9c755f", st "#bab0ab"]

/-- JavaScript `s.endsWith(ch)` for a single character. -/
def endsWithChar (ch : Char) (s : Str) : Bool := s.getLast? = some ch

/-- Tokens without a `+` or `*` marker (main.ts line 184). -/
def exactsOfTokens (toks : List Str) : List Str :=
  toks.filter (fun t => !endsWithChar '+' t && !endsWithChar '*' t)

/-- Tokens with a trailing `+`, marker stripped (main.ts line 182). -/
def letterOfTokens (toks : List Str) : List Str :=
  (toks.filter (fun t => endsWithChar '+' t)).map List.dropLast

/-- Tokens with a trailing `*` (and no trailing `+`), marker stripped
    (main.ts line 183). -/
def anyOfTokens (toks : List Str) : List Str :=
  (toks.filter (fun t => !endsWithChar '+' t && endsWithChar '*' t)).map List.dropLast

/-- The record type `Terr` of main.ts lines 123-128.  `pop` and `biz`
    are `Option` rationals, `none` modelling NaN. -/
structure Terr where
  id : Str
  region : Str
  exacts : List Str
  letterPrefixes : List Str
  anyPrefixes : List Str
  pop : Option ℚ
  biz : Option ℚ
  income : Str
  tokens : List Str
  status : Str
deriving DecidableEq, Repr

/-- `parts[i] ?? ''` with an optional index. -/
def getF (parts : List Str) (i : Option Nat) : Str :=
  match i with
  | some k => parts.getD k []
  | none => []

/-- The body of the row loop of main.ts lines 138-195, producing `none`
    for a row whose identifier is empty (line 141). -/
def parseRow (iId iReg iPfx iPop iBiz iInc iStat : Option Nat) (raw : Str) :
    Option Terr :=
  let parts := splitOnChar ',' raw
  let id := jsTrim (getF parts iId)
  if id = [] then none
  else
    let region := jsTrim (getF parts iReg)
    let pfxRaw := jsTrim (getF parts iPfx)
    let popStr := jsTrim (getF parts iPop)
    let bizStr := jsTrim (getF parts iBiz)
    let incomeAndStatus :=
      match iInc with
      | some k => jsTrim (joinComma (parts.drop k))
      | none =>
        match iBiz with
        | some k => jsTrim (joinComma (parts.drop (k + 1)))
        | none => []
    let status0 := jsTrim (getF parts iStat)
    let incomeStatus :=
      if status0 = [] ∧ incomeAndStatus ≠ [] then
        match iStat, lastIdxOf ',' incomeAndStatus with
        | some _, some k =>
          (jsTrim (incomeAndStatus.take k), jsTrim (incomeAndStatus.drop (k + 1)))
        | _, _ => (incomeAndStatus, status0)
      else
        (match iInc with
         | some k => jsTrim (getF parts (some k))
         | none => [],
         status0)
    let status1 := if incomeStatus.2 = [] then st "available" else incomeStatus.2
    let pfx := stripQuotes pfxRaw
    let tokens :=
      ((splitOnChar '|' pfx).map (fun x => upperStr (jsTrim x))).filter
        (fun x => x ≠ [])
    some
      { id := id
        region := region
        exacts := exactsOfTokens tokens
        letterPrefixes := letterOfTokens tokens
        anyPrefixes := anyOfTokens tokens
        pop := jsNumber popStr
        biz := jsNumber bizStr
        income := incomeStatus.1
        tokens := tokens
        status := lowerStr status1 }

/-- Header aliases of main.ts line 110. -/
def idAliases : List Str := [st "territory_id", st "id"]
/-- Header aliases of main.ts line 111. -/
def regAliases : List Str := [st "region"]
/-- Header aliases of main.ts line 112. -/
def pfxAliases : List Str := [st "postcode_prefixes", st "postcodes", st "prefixes"]
/-- Header aliases of main.ts line 113. -/
def popAliases : List Str := [st "estimated_population", st "population", st "pop"]
/-- Header aliases of main.ts line 114. -/
def bizAliases : List Str :=
  [st "indicative_business_count", st "businesses", st "biz", st "business_count"]
/-- Header aliases of main.ts line 115. -/
def incAliases : List Str := [st "average_household_income", st "income", st "avg_income"]
/-- Header aliases of main.ts line 116. -/
def statAliases : List Str := [st "status"]

/-- Outcome of a CSV load: no usable lines at all (main.ts line 101),
    required columns missing (lines 118-121, the SchemaInvalid failure),
    or the list of parsed territories. -/
inductive LoadResult where
  | emptyInput
  | schemaInvalid
  | ok (ts : List Terr)
deriving DecidableEq, Repr

/-- The lowercased trimmed header fields (main.ts line 105). -/
def headerCols (header : Str) : List Str :=
  (splitOnChar ',' header).map (fun h => lowerStr (jsTrim h))

/-- The CSV loading pipeline of main.ts lines 99-200. -/
def loadTerritories (text : Str) : LoadResult :=
  match nonemptyLines text with
  | [] => .emptyInput
  | header :: dataLines =>
    let cols := headerCols header
    let iId := idx cols idAliases
    let iReg := idx cols regAliases
    let iPfx := idx cols pfxAliases
    let iPop := idx cols popAliases
    let iBiz := idx cols bizAliases
    let iInc := idx cols incAliases
    let iStat := idx cols statAliases
    if iId = none ∨ iPfx = none then .schemaInvalid
    else .ok (dataLines.filterMap (parseRow iId iReg iPfx iPop iBiz iInc iStat))

/-- The territory list of a successful load. -/
def loadedTerrs : LoadResult → List Terr
  | .ok ts => ts
  | _ => []

/-- JavaScript object property assignment `tbl[k] = v` on a string-keyed
    record, modelled on its entry list: overwrite the value if the key
    is present (keeping its position), otherwise append. -/
def objInsert (tbl : List (Str × Str)) (k v : Str) : List (Str × Str) :=
  match tbl with
  | [] => [(k, v)]
  | kv :: rest => if kv.1 = k then (k, v) :: rest else kv :: objInsert rest k v

/-- JavaScript object property read `tbl[k]` (undefined as `none`). -/
def lookupTbl (tbl : List (Str × Str)) (k : Str) : Option Str :=
  (tbl.find? (fun kv => decide (kv.1 = k))).map (fun kv => kv.2)

/-- The lookup structures assembled by main.ts lines 131-136, 197-199
    and 207-208: the exact-code table, the two ordered continuation rule
    lists, the palette colour per territory and the status per
    territory.  The source fills these inside the row loop, in row
    order; building them from the final territory list is the same
    computation. -/
structure RuleSet where
  exactTbl : List (Str × Str)
  letterRules : List (Str × Str)
  anyRules : List (Str × Str)
  colourTbl : List (Str × Str)
  statusTbl : List (Str × Str)
deriving DecidableEq, Repr

/-- Rule-set construction (main.ts lines 197-199, 207-208, 136/195). -/
def compile (ts : List Terr) : RuleSet where
  exactTbl :=
    ts.foldl (fun tbl t => t.exacts.foldl (fun tb c => objInsert tb c t.id) tbl) []
  letterRules := ts.flatMap (fun t => t.letterPrefixes.map (fun p => (p, t.id)))
  anyRules := ts.flatMap (fun t => t.anyPrefixes.map (fun p => (p, t.id)))
  colourTbl :=
    ts.enum.foldl
      (fun tb pr =>
        objInsert tb pr.2.id (palette.getD (pr.1 % palette.length) (st "#cccccc")))
      []
  statusTbl := ts.foldl (fun tb t => objInsert tb t.id t.status) []

/-- The letter-continuation match test of the click handler (main.ts
    line 317):
    `code.startsWith(p) && (code.length === p.length ||`
    `LETTERS.includes(code[p.length] ?? ''))`.
    The `none` branch is `true` because in JavaScript
    `LETTERS.includes('')` is `true`. -/
def letterMatchesB (p c : Str) : Bool :=
  p.isPrefixOf c &&
    (c.length == p.length ||
      (match getElem? c p.length with
       | some ch => LETTERSl.contains ch
       | none => true))

/-- Tier 1 of the click handler: `codeToTidExact[code]` (line 315). -/
def exactLook (rs : RuleSet) (c : Str) : Option Str := lookupTbl rs.exactTbl c

/-- Tiers 2-3 of the click handler (lines 316-319): first matching
    letter-continuation rule, then first matching any-continuation
    rule. -/
def classifyCont (rs : RuleSet) (c : Str) : Option Str :=
  match rs.letterRules.find? (fun r => letterMatchesB r.1 c) with
  | some r => some r.2
  | none => (rs.anyRules.find? (fun r => r.1.isPrefixOf c)).map (fun r => r.2)

/-- The three-tier territory resolution of the click handler (main.ts
    lines 314-319), on an already-uppercased code. -/
def classify (rs : RuleSet) (c : Str) : Option Str :=
  match exactLook rs c with
  | some tid => some tid
  | none => classifyCont rs c

/-- MapLibre expression values occurring in the built style
    expressions: strings, booleans and numbers. -/
inductive Val where
  | vstr (s : Str)
  | vbool (b : Bool)
  | vnum (q : ℚ)
deriving DecidableEq, Repr

/-- The fragment of the MapLibre expression language emitted by main.ts
    lines 210-294.  A variadic `['case', c1, o1, ..., d]` array is
    represented as nested `caseB` nodes (condition/output/else), which
    is its evaluation semantics; `codeU` is the shared input expression
    `['upcase', ['get', codeProp]]` (line 211); `matchE` is
    `['match', input, label1, out1, ..., d]` with constant outputs, as
    built on lines 245-250. -/
inductive MExpr where
  | lit (v : Val)
  | codeU
  | sliceE (e : MExpr) (a b : ℕ)
  | lenE (e : MExpr)
  | eqE (x y : MExpr)
  | inE (e : MExpr) (set : List Str)
  | allE (x y : MExpr)
  | anyE (x y : MExpr)
  | caseB (cond out els : MExpr)
  | matchE (inp : MExpr) (branches : List (Str × Val)) (dflt : MExpr)
deriving Repr

/-- Boolean coercion of an evaluated condition. -/
def asBool : Val → Bool
  | .vbool b => b
  | _ => false

/-- Evaluation of the expression fragment at a feature whose code
    property is `code` (the renderer's semantics: JavaScript string
    slice/length/equality, membership in a string list, boolean
    connectives, first-true `case` branch, first-equal `match`
    label). -/
def evalE (code : Str) : MExpr → Val
  | .lit v => v
  | .codeU => .vstr (upperStr code)
  | .sliceE e a b =>
    match evalE code e with
    | .vstr s => .vstr ((s.take b).drop a)
    | v => v
  | .lenE e =>
    match evalE code e with
    | .vstr s => .vnum s.length
    | v => v
  | .eqE x y => .vbool (decide (evalE code x = evalE code y))
  | .inE e set =>
    .vbool
      (match evalE code e with
       | .vstr s => set.contains s
       | _ => false)
  | .allE x y => .vbool (asBool (evalE code x) && asBool (evalE code y))
  | .anyE x y => .vbool (asBool (evalE code x) || asBool (evalE code y))
  | .caseB cond out els =>
    if asBool (evalE code cond) then evalE code out else evalE code els
  | .matchE inp branches dflt =>
    match evalE code inp with
    | .vstr s =>
      match branches.find? (fun br => decide (br.1 = s)) with
      | some br => br.2
      | none => evalE code dflt
    | _ => evalE code dflt

/-- `colourByTid[tid] ?? '#cccccc'` (main.ts lines 217, 235, 247). -/
def colourGet (tbl : List (Str × Str)) (tid : Str) : Str :=
  (lookupTbl tbl tid).getD (st "#cccccc")

/-- The condition `['==', ['slice', CODE_U, 0, p.length], p]` used for
    any-continuation branches (main.ts line 217). -/
def condAnyE (p : Str) : MExpr :=
  .eqE (.sliceE .codeU 0 p.length) (.lit (.vstr p))

/-- The condition of a letter-continuation branch (main.ts lines
    228-234): prefix equality, and base length or next character in
    `AtoZ`. -/
def condLetterE (p : Str) : MExpr :=
  .allE (condAnyE p)
    (.anyE (.eqE (.lenE .codeU) (.lit (.vnum p.length)))
      (.inE (.sliceE .codeU p.length (p.length + 1)) AtoZ))

/-- The fallback colour `'#dddddd'` (main.ts line 219). -/
def greyAny : Str := st "#dddddd"

/-- `makeAnyExpr` of main.ts lines 213-221. -/
def makeAnyExpr (rs : RuleSet) : MExpr :=
  if rs.anyRules = [] then .lit (.vstr greyAny)
  else
    rs.anyRules.foldr
      (fun r acc =>
        .caseB (condAnyE r.1) (.lit (.vstr (colourGet rs.colourTbl r.2))) acc)
      (.lit (.vstr greyAny))

/-- `makeLetterExpr` of main.ts lines 223-240. -/
def makeLetterExpr (rs : RuleSet) (anyExprT : MExpr) : MExpr :=
  if rs.letterRules = [] then anyExprT
  else
    rs.letterRules.foldr
      (fun r acc =>
        .caseB (condLetterE r.1) (.lit (.vstr (colourGet rs.colourTbl r.2))) acc)
      anyExprT

/-- The colour expression `colorExpr` of main.ts lines 242-250. -/
def colorExpr (rs : RuleSet) : MExpr :=
  let le := makeLetterExpr rs (makeAnyExpr rs)
  if rs.exactTbl = [] then le
  else
    .matchE .codeU
      (rs.exactTbl.map (fun kv => (kv.1, Val.vstr (colourGet rs.colourTbl kv.2)))) le

/-- `tidToStatus[tid] === 'taken'` (main.ts lines 260, 278, 289). -/
def isTakenTid (rs : RuleSet) (tid : Str) : Bool :=
  decide (lookupTbl rs.statusTbl tid = some (st "taken"))

/-- `makeAnyTakenExpr` of main.ts lines 254-265. -/
def makeAnyTakenExpr (rs : RuleSet) : MExpr :=
  if rs.anyRules = [] then .lit (.vbool false)
  else
    rs.anyRules.foldr
      (fun r acc => .caseB (condAnyE r.1) (.lit (.vbool (isTakenTid rs r.2))) acc)
      (.lit (.vbool false))

/-- `makeLetterTakenExpr` of main.ts lines 266-283. -/
def makeLetterTakenExpr (rs : RuleSet) (anyT : MExpr) : MExpr :=
  if rs.letterRules = [] then anyT
  else
    rs.letterRules.foldr
      (fun r acc => .caseB (condLetterE r.1) (.lit (.vbool (isTakenTid rs r.2))) acc)
      anyT

/-- The boolean expression `isTakenExpr` of main.ts lines 284-292. -/
def isTakenExpr (rs : RuleSet) : MExpr :=
  let lt := makeLetterTakenExpr rs (makeAnyTakenExpr rs)
  if rs.exactTbl = [] then lt
  else
    .matchE .codeU
      (rs.exactTbl.map (fun kv => (kv.1, Val.vbool (isTakenTid rs kv.2)))) lt

/-- The opacity expression of main.ts line 294:
    `['case', isTakenExpr, 0.28, 0.68]`. -/
def opacityExpr (rs : RuleSet) : MExpr :=
  .caseB (isTakenExpr rs) (.lit (.vnum (28 / 100))) (.lit (.vnum (68 / 100)))

/-- The owning-territory colour decision the classifier induces: the
    owner's palette colour, or the unmatched default. -/
def colourDecision (rs : RuleSet) (o : Option Str) : Str :=
  match o with
  | some tid => colourGet rs.colourTbl tid
  | none => greyAny

/-- The dimming decision the classifier induces: whether the owning
    territory (if any) has status taken. -/
def takenDecision (rs : RuleSet) (o : Option Str) : Bool :=
  match o with
  | some tid => isTakenTid rs tid
  | none => false

/- Basic lemmas about the string model. -/

theorem splitOnChar_ne_nil (sep : Char) (l : Str) : splitOnChar sep l ≠ [] := by
  cases l with
  | nil => simp [splitOnChar]
  | cons c rest =>
    simp only [splitOnChar]
    by_cases h : c = sep
    · simp [h]
    · simp only [if_neg h]
      split <;> simp

theorem splitOnChar_of_not_mem {sep : Char} {l : Str} (h : sep ∉ l) :
    splitOnChar sep l = [l] := by
  induction l with
  | nil => rfl
  | cons c rest ih =>
    have hc : ¬c = sep := by rintro rfl; exact h (List.mem_cons_self c rest)
    have hr : sep ∉ rest := fun hm => h (List.mem_cons_of_mem _ hm)
    simp [splitOnChar, hc, ih hr]

theorem splitOnChar_append {sep : Char} {a : Str} (b : Str) (h : sep ∉ a) :
    splitOnChar sep (a ++ sep :: b) = a :: splitOnChar sep b := by
  induction a with
  | nil => simp [splitOnChar]
  | cons c rest ih =>
    have hc : ¬c = sep := by rintro rfl; exact h (List.mem_cons_self c rest)
    have hr : sep ∉ rest := fun hm => h (List.mem_cons_of_mem _ hm)
    simp only [List.cons_append, splitOnChar, if_neg hc]
    rw [show rest.append (sep :: b) = rest ++ sep :: b from rfl, ih hr]

theorem take_len_eq_iff (p l : Str) : l.take p.length = p ↔ p.isPrefixOf l = true := by
  rw [List.isPrefixOf_iff_prefix, List.prefix_iff_eq_take, eq_comm]

theorem contains_eq_decide {α : Type} [BEq α] [LawfulBEq α] [DecidableEq α]
    (l : List α) (a : α) : l.contains a = decide (a ∈ l) := by
  simp [List.contains, List.elem_eq_mem]

theorem slice_one (l : Str) (n : Nat) :
    (l.take (n + 1)).drop n = (getElem? l n).toList := by
  rw [List.drop_take, Nat.add_sub_cancel_left, ← List.head?_drop]
  cases l.drop n <;> simp

theorem AtoZ_contains_singleton (ch : Char) :
    AtoZ.contains [ch] = LETTERSl.contains ch := by
  rw [contains_eq_decide, contains_eq_decide]
  have h : ([ch] ∈ AtoZ) ↔ ch ∈ LETTERSl := by simp [AtoZ]
  by_cases hm : ch ∈ LETTERSl
  · simp [hm, h.mpr hm]
  · have hn : [ch] ∉ AtoZ := fun hx => hm (h.mp hx)
    simp [hm, hn]

/- Evaluation lemmas for the built expressions. -/

theorem asBool_eval_condAny (code p : Str) :
    asBool (evalE code (condAnyE p)) = p.isPrefixOf (upperStr code) := by
  have hiff := take_len_eq_iff p (upperStr code)
  simp only [condAnyE, evalE, asBool, List.drop_zero]
  cases h : p.isPrefixOf (upperStr code)
  · rw [h] at hiff; simp [hiff]
  · rw [h] at hiff; simp [hiff]

theorem asBool_eval_condLetter (code p : Str) :
    asBool (evalE code (condLetterE p)) = letterMatchesB p (upperStr code) := by
  simp only [condLetterE, evalE, asBool, List.drop_zero, Val.vstr.injEq, Val.vnum.injEq,
    Nat.cast_inj]
  unfold letterMatchesB
  cases hp : p.isPrefixOf (upperStr code)
  · have hn : ¬List.take p.length (upperStr code) = p := by
      rw [take_len_eq_iff, hp]; simp
    simp [hn]
  · have ht : List.take p.length (upperStr code) = p := (take_len_eq_iff _ _).mpr hp
    have hlen : p.length ≤ (upperStr code).length :=
      (List.isPrefixOf_iff_prefix.mp hp).length_le
    simp only [ht, decide_True, Bool.true_and]
    by_cases hl : (upperStr code).length = p.length
    · simp [hl]
    · have hlt : p.length < (upperStr code).length := by omega
      have hch : ∃ ch, getElem? (upperStr code) p.length = some ch := by
        simp [List.getElem?_eq_getElem hlt]
      obtain ⟨ch, hc2⟩ := hch
      rw [slice_one]
      simp only [hc2, Option.toList_some, AtoZ_contains_singleton]
      simp [hl]

theorem eval_chain (code : Str) (rules : List (Str × Str)) (mkB : Str → MExpr)
    (out : Str × Str → Val) (init : MExpr) (f : Str → Bool)
    (hc : ∀ p, asBool (evalE code (mkB p)) = f p) :
    evalE code (rules.foldr (fun r acc => .caseB (mkB r.1) (.lit (out r)) acc) init)
      = match rules.find? (fun r => f r.1) with
        | some r => out r
        | none => evalE code init := by
  induction rules with
  | nil => simp
  | cons r rest ih =>
    simp only [List.foldr_cons, evalE, hc]
    cases h : f r.1
    · simp only [Bool.false_eq_true, if_false, ih, List.find?_cons, h]
    · simp only [if_true, List.find?_cons, h, evalE]

theorem eval_matchTbl (code : Str) (tbl : List (Str × Str)) (f : Str → Val)
    (dflt : MExpr) :
    evalE code (.matchE .codeU (tbl.map (fun kv => (kv.1, f kv.2))) dflt)
      = match tbl.find? (fun kv => decide (kv.1 = upperStr code)) with
        | some kv => f kv.2
        | none => evalE code dflt := by
  simp only [evalE]
  induction tbl with
  | nil => simp
  | cons kv rest ih =>
    by_cases h : kv.1 = upperStr code
    · simp [List.find?_cons, h]
    · simp only [List.map_cons, List.find?_cons, decide_eq_true_eq, h, decide_False,
        ih]

theorem eval_letterAny_colour (rs : RuleSet) (code : Str) :
    evalE code (makeLetterExpr rs (makeAnyExpr rs))
      = .vstr
          (match classifyCont rs (upperStr code) with
           | some tid => colourGet rs.colourTbl tid
           | none => greyAny) := by
  have hany :
      evalE code (makeAnyExpr rs)
        = .vstr
            (match rs.anyRules.find? (fun r => r.1.isPrefixOf (upperStr code)) with
             | some r => colourGet rs.colourTbl r.2
             | none => greyAny) := by
    unfold makeAnyExpr
    by_cases h : rs.anyRules = []
    · simp [h, evalE]
    · rw [if_neg h,
        eval_chain code rs.anyRules condAnyE
          (fun r => Val.vstr (colourGet rs.colourTbl r.2)) _
          (fun p => p.isPrefixOf (upperStr code))
          (fun p => asBool_eval_condAny code p)]
      cases rs.anyRules.find? (fun r => r.1.isPrefixOf (upperStr code)) <;>
        simp [evalE]
  unfold makeLetterExpr classifyCont
  by_cases h : rs.letterRules = []
  · rw [if_pos h, hany, h]
    cases rs.anyRules.find? (fun r => r.1.isPrefixOf (upperStr code)) <;> simp
  · rw [if_neg h,
      eval_chain code rs.letterRules condLetterE
        (fun r => Val.vstr (colourGet rs.colourTbl r.2)) _
        (fun p => letterMatchesB p (upperStr code))
        (fun p => asBool_eval_condLetter code p)]
    cases rs.letterRules.find? (fun r => letterMatchesB r.1 (upperStr code))
    · rw [hany]
      cases rs.anyRules.find? (fun r => r.1.isPrefixOf (upperStr code)) <;> simp
    · simp

theorem eval_colorExpr (rs : RuleSet) (code : Str) :
    evalE code (colorExpr rs)
      = .vstr (colourDecision rs (classify rs (upperStr code))) := by
  unfold colorExpr classify exactLook lookupTbl colourDecision
  by_cases h : rs.exactTbl = []
  · rw [if_pos h, h, eval_letterAny_colour]
    cases classifyCont rs (upperStr code) <;> simp
  · rw [if_neg h,
      eval_matchTbl code rs.exactTbl
        (fun tid => Val.vstr (colourGet rs.colourTbl tid)) _]
    cases rs.exactTbl.find? (fun kv => decide (kv.1 = upperStr code))
    · rw [eval_letterAny_colour]
      cases classifyCont rs (upperStr code) <;> simp
    · simp

theorem eval_letterAny_taken (rs : RuleSet) (code : Str) :
    evalE code (makeLetterTakenExpr rs (makeAnyTakenExpr rs))
      = .vbool
          (match classifyCont rs (upperStr code) with
           | some tid => isTakenTid rs tid
           | none => false) := by
  have hany :
      evalE code (makeAnyTakenExpr rs)
        = .vbool
            (match rs.anyRules.find? (fun r => r.1.isPrefixOf (upperStr code)) with
             | some r => isTakenTid rs r.2
             | none => false) := by
    unfold makeAnyTakenExpr
    by_cases h : rs.anyRules = []
    · simp [h, evalE]
    · rw [if_neg h,
        eval_chain code rs.anyRules condAnyE
          (fun r => Val.vbool (isTakenTid rs r.2)) _
          (fun p => p.isPrefixOf (upperStr code))
          (fun p => asBool_eval_condAny code p)]
      cases rs.anyRules.find? (fun r => r.1.isPrefixOf (upperStr code)) <;>
        simp [evalE]
  unfold makeLetterTakenExpr classifyCont
  by_cases h : rs.letterRules = []
  · rw [if_pos h, hany, h]
    cases rs.anyRules.find? (fun r => r.1.isPrefixOf (upperStr code)) <;> simp
  · rw [if_neg h,
      eval_chain code rs.letterRules condLetterE
        (fun r => Val.vbool (isTakenTid rs r.2)) _
        (fun p => letterMatchesB p (upperStr code))
        (fun p => asBool_eval_condLetter code p)]
    cases rs.letterRules.find? (fun r => letterMatchesB r.1 (upperStr code))
    · rw [hany]
      cases rs.anyRules.find? (fun r => r.1.isPrefixOf (upperStr code)) <;> simp
    · simp

theorem eval_isTakenExpr (rs : RuleSet) (code : Str) :
    evalE code (isTakenExpr rs)
      = .vbool (takenDecision rs (classify rs (upperStr code))) := by
  unfold isTakenExpr classify exactLook lookupTbl takenDecision
  by_cases h : rs.exactTbl = []
  · rw [if_pos h, h, eval_letterAny_taken]
    cases classifyCont rs (upperStr code) <;> simp
  · rw [if_neg h,
      eval_matchTbl code rs.exactTbl (fun tid => Val.vbool (isTakenTid rs tid)) _]
    cases rs.exactTbl.find? (fun kv => decide (kv.1 = upperStr code))
    · rw [eval_letterAny_taken]
      cases classifyCont rs (upperStr code) <;> simp
    · simp

theorem eval_opacityExpr (rs : RuleSet) (code : Str) :
    evalE code (opacityExpr rs)
      = .vnum
          (if takenDecision rs (classify rs (upperStr code)) then 28 / 100
           else 68 / 100) := by
  show
    (if asBool (evalE code (isTakenExpr rs)) then evalE code (.lit (.vnum (28 / 100)))
     else evalE code (.lit (.vnum (68 / 100)))) = _
  rw [eval_isTakenExpr]
  cases takenDecision rs (classify rs (upperStr code)) <;> simp [evalE, asBool]

theorem mem_of_getLast?_eq {l : Str} {a : Char} (h : l.getLast? = some a) :
    a ∈ l := by
  have hx : a ∈ l.getLast? := by rw [h]; rfl
  obtain ⟨hne, heq⟩ := List.mem_getLast?_eq_getLast hx
  rw [heq]
  exact List.getLast_mem hne

/-- C1: evaluating the Style Expression Builder's colour and opacity
    expression trees at any feature code yields exactly the
    owning-territory decision of `classify` on the compiled rule set:
    the colour is the owner's palette colour (or the unmatched default),
    and the opacity is the dimmed value exactly when the owner's status
    is taken. -/
theorem expr_classifier_equiv (ts : List Terr) (code : Str) :
    evalE code (colorExpr (compile ts))
        = .vstr (colourDecision (compile ts) (classify (compile ts) (upperStr code)))
      ∧ evalE code (opacityExpr (compile ts))
        = .vnum
            (if takenDecision (compile ts) (classify (compile ts) (upperStr code))
             then 28 / 100 else 68 / 100) :=
  ⟨eval_colorExpr (compile ts) code, eval_opacityExpr (compile ts) code⟩

/-- C2: a code present in the exact-token table is classified by the
    exact tier, regardless of any letter- or any-continuation rules it
    also matches. -/
theorem exact_tier_precedence (ts : List Terr) (c tid : Str)
    (hx : exactLook (compile ts) c = some tid)
    (hcont :
      (∃ r ∈ (compile ts).letterRules, letterMatchesB r.1 c = true)
        ∨ ∃ r ∈ (compile ts).anyRules, r.1.isPrefixOf c = true) :
    classify (compile ts) c = some tid := by
  unfold classify
  rw [hx]

/-- Territory fixture: declares the exact code W1. -/
def terrExactW1 : Terr :=
  { id := st "T1", region := [], exacts := [st "W1"], letterPrefixes := [],
    anyPrefixes := [], pop := some 0, biz := some 0, income := [],
    tokens := [st "W1"], status := st "available" }

/-- Territory fixture: declares the letter-continuation prefix W1. -/
def terrLetterW : Terr :=
  { id := st "T2", region := [], exacts := [], letterPrefixes := [st "W1"],
    anyPrefixes := [], pop := some 0, biz := some 0, income := [],
    tokens := [st "W1+"], status := st "taken" }

theorem exact_tier_precedence_witness :
    classify (compile [terrExactW1, terrLetterW]) (st "W1") = some (st "T1") :=
  exact_tier_precedence [terrExactW1, terrLetterW] (st "W1") (st "T1") (by decide)
    (Or.inl ⟨(st "W1", st "T2"), by decide, by decide⟩)

/-- C3: a letter-continuation rule with prefix p matches exactly the
    codes that start with p and either have the length of p or continue
    with an uppercase letter A-Z, all later characters being
    unconstrained; in particular a digit right after p never matches at
    this tier. -/
theorem letter_rule_match_iff (p c : Str) :
    (letterMatchesB p c = true ↔
      p <+: c ∧
        (c.length = p.length ∨
          ∃ ch, getElem? c p.length = some ch ∧ ch ∈ LETTERSl))
      ∧ ∀ d rest, d.isDigit = true → letterMatchesB p (p ++ d :: rest) = false := by
  constructor
  · unfold letterMatchesB
    rw [Bool.and_eq_true, Bool.or_eq_true, List.isPrefixOf_iff_prefix, beq_iff_eq]
    constructor
    · rintro ⟨hp, hor⟩
      refine ⟨hp, ?_⟩
      cases hor with
      | inl h => exact Or.inl h
      | inr h =>
        cases hg : getElem? c p.length with
        | none =>
          have hle : c.length ≤ p.length := List.getElem?_eq_none_iff.mp hg
          exact Or.inl (le_antisymm hle hp.length_le)
        | some ch =>
          rw [hg] at h
          have h2 : LETTERSl.contains ch = true := h
          rw [contains_eq_decide] at h2
          exact Or.inr ⟨ch, rfl, of_decide_eq_true h2⟩
    · rintro ⟨hp, hor⟩
      refine ⟨hp, ?_⟩
      cases hor with
      | inl h => exact Or.inl h
      | inr h =>
        obtain ⟨ch, hg, hm⟩ := h
        right
        rw [hg]
        show LETTERSl.contains ch = true
        rw [contains_eq_decide]
        exact decide_eq_true hm
  · intro d rest hd
    have hcont : LETTERSl.contains d = false := by
      rw [contains_eq_decide]
      simp only [decide_eq_false_iff_not]
      intro hm
      have hall : ∀ x ∈ LETTERSl, x.isDigit = false := by decide
      rw [hall d hm] at hd
      cases hd
    have hpre : p.isPrefixOf (p ++ d :: rest) = true := by
      rw [List.isPrefixOf_iff_prefix]
      exact ⟨d :: rest, rfl⟩
    have hlen : ((p ++ d :: rest).length == p.length) = false := by
      simp only [List.length_append, List.length_cons, beq_eq_false_iff_ne, ne_eq]
      omega
    have hg : getElem? (p ++ d :: rest) p.length = some d := by
      rw [List.getElem?_append_right (le_refl p.length)]
      simp
    unfold letterMatchesB
    rw [hpre, hlen, hg]
    show (true && (false || LETTERSl.contains d)) = false
    rw [hcont]
    rfl

theorem letter_rule_match_iff_witness :
    letterMatchesB (st "W1") (st "W12") = false
      ∧ letterMatchesB (st "W1") (st "W1A") = true :=
  ⟨(letter_rule_match_iff (st "W1") (st "W12")).2 '2' [] (by decide),
   (letter_rule_match_iff (st "W1") (st "W1A")).1.mpr
     ⟨by decide, Or.inr ⟨'A', by decide, by decide⟩⟩⟩

/-- Territory fixture: declares the bare any-continuation token. -/
def terrStar : Terr :=
  { id := st "T3", region := [], exacts := [], letterPrefixes := [],
    anyPrefixes := [[]], pop := some 0, biz := some 0, income := [],
    tokens := [st "*"], status := st "available" }

/-- C10: a bare `*` token compiles to an any-continuation rule with
    empty prefix; the empty prefix matches every code, so a territory
    holding it makes `classify` total (never the no-territory result);
    and a bare `+` token compiles to a letter-continuation rule with
    empty prefix, matching exactly the codes that are empty or start
    with an uppercase letter. -/
theorem star_plus_tokens :
    (∀ toks, st "*" ∈ toks → [] ∈ anyOfTokens toks)
      ∧ (∀ c : Str, ([] : Str).isPrefixOf c = true)
      ∧ (∀ ts t c, t ∈ ts → [] ∈ t.anyPrefixes → classify (compile ts) c ≠ none)
      ∧ (∀ toks, st "+" ∈ toks → [] ∈ letterOfTokens toks)
      ∧ (∀ c : Str,
          letterMatchesB [] c = true ↔
            c = [] ∨ ∃ ch rest, c = ch :: rest ∧ ch ∈ LETTERSl) := by
  refine ⟨?_, ?_, ?_, ?_, ?_⟩
  · intro toks h
    unfold anyOfTokens
    refine List.mem_map.mpr ⟨st "*", List.mem_filter.mpr ⟨h, by decide⟩, rfl⟩
  · intro c
    cases c <;> rfl
  · intro ts t c ht hmem
    have hrule : (([] : Str), t.id) ∈ (compile ts).anyRules := by
      unfold compile
      exact List.mem_flatMap.mpr ⟨t, ht, List.mem_map.mpr ⟨[], hmem, rfl⟩⟩
    unfold classify
    cases hx : exactLook (compile ts) c
    · unfold classifyCont
      cases hl : (compile ts).letterRules.find? (fun r => letterMatchesB r.1 c)
      · have hsome :
            ((compile ts).anyRules.find? (fun r => r.1.isPrefixOf c)).isSome := by
          rw [List.find?_isSome]
          exact ⟨([], t.id), hrule, by cases c <;> rfl⟩
        cases hf : (compile ts).anyRules.find? (fun r => r.1.isPrefixOf c)
        · rw [hf] at hsome
          cases hsome
        · simp
      · simp
    · simp
  · intro toks h
    unfold letterOfTokens
    refine List.mem_map.mpr ⟨st "+", List.mem_filter.mpr ⟨h, by decide⟩, rfl⟩
  · intro c
    cases c with
    | nil => simp [letterMatchesB]
    | cons ch rest =>
      unfold letterMatchesB
      simp only [List.isPrefixOf, Bool.true_and, List.length_cons, List.length_nil]
      have hb : (rest.length + 1 == 0) = false := by simp
      rw [hb]
      simp only [Bool.false_or]
      have hg : getElem? (ch :: rest) 0 = some ch := by simp
      rw [hg]
      show (LETTERSl.contains ch = true) ↔ _
      rw [contains_eq_decide]
      constructor
      · intro hdec
        exact Or.inr ⟨ch, rest, rfl, of_decide_eq_true hdec⟩
      · rintro (h | ⟨ch2, rest2, heq, hm⟩)
        · cases h
        · cases heq
          exact decide_eq_true hm

theorem star_plus_tokens_witness :
    ([] : Str) ∈ anyOfTokens [st "*"]
      ∧ classify (compile [terrStar]) (st "ZZ99") ≠ none
      ∧ ([] : Str) ∈ letterOfTokens [st "+"]
      ∧ letterMatchesB [] (st "N1") = true :=
  ⟨star_plus_tokens.1 [st "*"] (by decide),
   star_plus_tokens.2.2.1 [terrStar] terrStar (st "ZZ99") (by decide) (by decide),
   star_plus_tokens.2.2.2.1 [st "+"] (by decide),
   (star_plus_tokens.2.2.2.2 (st "N1")).mpr
     (Or.inr ⟨'N', ['1'], rfl, by decide⟩)⟩

/- Lemmas about the exact-code table built by repeated object
   assignment. -/

theorem lookup_objInsert (tbl : List (Str × Str)) (k v k' : Str) :
    lookupTbl (objInsert tbl k v) k'
      = if k' = k then some v else lookupTbl tbl k' := by
  induction tbl with
  | nil =>
    by_cases h : k' = k
    · simp [objInsert, lookupTbl, h]
    · have h5 : ¬(k = k') := fun hx => h hx.symm
      simp [objInsert, lookupTbl, h, h5]
  | cons kv rest ih =>
    by_cases h : kv.1 = k
    · by_cases h2 : k' = k
      · simp [objInsert, lookupTbl, h, h2]
      · have h3 : ¬(k = k') := fun hx => h2 hx.symm
        have h4 : ¬(kv.1 = k') := by rw [h]; exact h3
        simp [objInsert, lookupTbl, h, h2, h3, h4]
    · simp only [objInsert, if_neg h]
      by_cases h2 : kv.1 = k'
      · have h3 : ¬(k' = k) := by rw [← h2]; exact h
        unfold lookupTbl
        simp only [List.find?_cons, h2, decide_True]
        simp [h3]
      · unfold lookupTbl
        simp only [List.find?_cons, decide_eq_true_eq, h2, decide_False]
        exact ih

theorem lookup_foldl_insert (xs : List Str) (i : Str) (tbl : List (Str × Str))
    (c : Str) :
    lookupTbl (xs.foldl (fun tb x => objInsert tb x i) tbl) c
      = if c ∈ xs then some i else lookupTbl tbl c := by
  induction xs generalizing tbl with
  | nil => simp
  | cons x rest ih =>
    simp only [List.foldl_cons, ih, lookup_objInsert, List.mem_cons]
    by_cases hr : c ∈ rest
    · simp [hr]
    · by_cases hx : c = x
      · simp [hr, hx]
      · simp [hr, hx]

theorem lookup_exact_fold (ts : List Terr) (tbl : List (Str × Str)) (c : Str) :
    lookupTbl
        (ts.foldl
          (fun tb t => t.exacts.foldl (fun tb2 x => objInsert tb2 x t.id) tb) tbl)
        c
      = match ts.reverse.find? (fun t => decide (c ∈ t.exacts)) with
        | some t => some t.id
        | none => lookupTbl tbl c := by
  induction ts generalizing tbl with
  | nil => simp
  | cons t rest ih =>
    simp only [List.foldl_cons, ih, List.reverse_cons, List.find?_append]
    cases hf : rest.reverse.find? (fun t => decide (c ∈ t.exacts)) with
    | some u => simp [Option.or]
    | none =>
      simp only [Option.or]
      rw [lookup_foldl_insert]
      by_cases hm : c ∈ t.exacts
      · simp [List.find?_cons, hm]
      · simp [List.find?_cons, hm]

/-- The exact tier of `classify` on a compiled rule set reads the table
    built by object assignment: the last declaring territory wins. -/
theorem exactLook_compile (ts : List Terr) (c : Str) :
    exactLook (compile ts) c
      = (ts.reverse.find? (fun t => decide (c ∈ t.exacts))).map Terr.id := by
  unfold exactLook compile
  rw [lookup_exact_fold]
  cases ts.reverse.find? (fun t => decide (c ∈ t.exacts)) <;>
    simp [lookupTbl]

/-- C9: within the exact tier the territory declared last owns a
    duplicated exact token (object-table insertion overwrites), while
    within the letter- and any-continuation tiers the first matching
    rule in declaration order wins. -/
theorem tier_tiebreak (ts : List Terr) (c : Str) :
    (∀ tid,
        (ts.reverse.find? (fun t => decide (c ∈ t.exacts))).map Terr.id = some tid →
          classify (compile ts) c = some tid)
      ∧ (∀ pre p tid post,
          exactLook (compile ts) c = none →
          (compile ts).letterRules = pre ++ (p, tid) :: post →
          (∀ r ∈ pre, letterMatchesB r.1 c = false) →
          letterMatchesB p c = true →
          classify (compile ts) c = some tid)
      ∧ (∀ pre p tid post,
          exactLook (compile ts) c = none →
          (∀ r ∈ (compile ts).letterRules, letterMatchesB r.1 c = false) →
          (compile ts).anyRules = pre ++ (p, tid) :: post →
          (∀ r ∈ pre, r.1.isPrefixOf c = false) →
          p.isPrefixOf c = true →
          classify (compile ts) c = some tid) := by
  refine ⟨?_, ?_, ?_⟩
  · intro tid h
    unfold classify
    rw [exactLook_compile, h]
  · intro pre p tid post hx hrules hpre hp
    unfold classify
    rw [hx]
    unfold classifyCont
    rw [hrules, List.find?_append]
    have hnone : pre.find? (fun r => letterMatchesB r.1 c) = none :=
      List.find?_eq_none.mpr (fun x hx2 => by rw [hpre x hx2]; simp)
    rw [hnone]
    simp [List.find?_cons, hp, Option.or]
  · intro pre p tid post hx hletter hrules hpre hp
    unfold classify
    rw [hx]
    unfold classifyCont
    have hlnone : (compile ts).letterRules.find? (fun r => letterMatchesB r.1 c) = none :=
      List.find?_eq_none.mpr (fun x hx2 => by rw [hletter x hx2]; simp)
    rw [hlnone, hrules, List.find?_append]
    have hnone : pre.find? (fun r => r.1.isPrefixOf c) = none :=
      List.find?_eq_none.mpr (fun x hx2 => by rw [hpre x hx2]; simp)
    rw [hnone]
    simp [List.find?_cons, hp, Option.or]

/-- Territory fixture for the tie-break witness (declared first). -/
def terrFirst : Terr :=
  { id := st "A", region := [], exacts := [st "X"], letterPrefixes := [st "W"],
    anyPrefixes := [st "E"], pop := some 0, biz := some 0, income := [],
    tokens := [st "X", st "W+", st "E*"], status := st "available" }

/-- Territory fixture for the tie-break witness (declared second). -/
def terrSecond : Terr :=
  { id := st "B", region := [], exacts := [st "X"], letterPrefixes := [st "W"],
    anyPrefixes := [st "E"], pop := some 0, biz := some 0, income := [],
    tokens := [st "X", st "W+", st "E*"], status := st "available" }

theorem tier_tiebreak_witness :
    classify (compile [terrFirst, terrSecond]) (st "X") = some (st "B")
      ∧ classify (compile [terrFirst, terrSecond]) (st "WA") = some (st "A")
      ∧ classify (compile [terrFirst, terrSecond]) (st "E9") = some (st "A") :=
  ⟨(tier_tiebreak [terrFirst, terrSecond] (st "X")).1 (st "B") (by decide),
   (tier_tiebreak [terrFirst, terrSecond] (st "WA")).2.1 []
     (st "W") (st "A") [(st "W", st "B")] (by decide) (by decide)
     (by decide) (by decide),
   (tier_tiebreak [terrFirst, terrSecond] (st "E9")).2.2 []
     (st "E") (st "A") [(st "E", st "B")] (by decide) (by decide)
     (by decide) (by decide) (by decide)⟩

/- Lemmas to evaluate the loader on a two-line text with one symbolic
   field. -/

theorem dropCR_of_not_mem {l : Str} (h : '\r' ∉ l) : dropCR l = l := by
  unfold dropCR
  cases hl : l.getLast? with
  | none => simp [hl]
  | some a =>
    have ha : ¬(a = '\r') := fun hx => h (hx ▸ mem_of_getLast?_eq hl)
    simp [hl, ha]

theorem nonemptyLines_two (hdr row : Str)
    (h1 : '\n' ∉ hdr) (h2 : '\r' ∉ hdr) (h3 : hdr ≠ [])
    (h4 : '\n' ∉ row) (h5 : '\r' ∉ row) (h6 : row ≠ []) :
    nonemptyLines (hdr ++ '\n' :: row) = [hdr, row] := by
  unfold nonemptyLines splitLines
  rw [splitOnChar_append row h1, splitOnChar_of_not_mem h4]
  simp [dropCR_of_not_mem h2, dropCR_of_not_mem h5, h3, h6]

theorem parseRow_status (s : Str) (hc : ',' ∉ s) :
    parseRow (some 0) none (some 1) none none none (some 2) (st "T1,W1," ++ s)
      = some
          { id := st "T1", region := [], exacts := [st "W1"],
            letterPrefixes := [], anyPrefixes := [],
            pop := some 0, biz := some 0, income := [],
            tokens := [st "W1"],
            status :=
              if jsTrim s = [] then st "available" else lowerStr (jsTrim s) } := by
  have hparts : splitOnChar ',' (st "T1,W1," ++ s) = [st "T1", st "W1", s] := by
    have he : st "T1,W1," ++ s = st "T1" ++ ',' :: (st "W1" ++ ',' :: s) := rfl
    rw [he, splitOnChar_append _ (by decide), splitOnChar_append _ (by decide),
      splitOnChar_of_not_mem hc]
  unfold parseRow
  rw [hparts]
  simp only [getF, List.getD_cons_zero, List.getD_cons_succ]
  have ht1 : jsTrim (st "T1") = st "T1" := by decide
  have hw1 : jsTrim (st "W1") = st "W1" := by decide
  rw [ht1, hw1]
  have hne : ¬(st "T1" = ([] : Str)) := by decide
  rw [if_neg hne]
  have hz : jsTrim ([] : Str) = [] := rfl
  have htok :
      List.filter (fun x => decide (x ≠ []))
          (List.map (fun x => upperStr (jsTrim x))
            (splitOnChar '|' (stripQuotes (st "W1")))) = [st "W1"] := by decide
  have hfalse : ¬(jsTrim s = [] ∧ ([] : Str) ≠ []) := by simp
  rw [hz, if_neg hfalse, htok]
  have hex : exactsOfTokens [st "W1"] = [st "W1"] := by decide
  have hlet2 : letterOfTokens [st "W1"] = [] := by decide
  have hany2 : anyOfTokens [st "W1"] = [] := by decide
  have hnum : jsNumber ([] : Str) = some 0 := by decide
  rw [hex, hlet2, hany2, hnum]
  have hav : lowerStr (st "available") = st "available" := by decide
  by_cases hs : jsTrim s = []
  · simp [hs, hav]
  · simp [hs]

/-- C7 (amended): the stored status is the lowercased trimmed status
    field, and only an empty status field is replaced by the default
    available; a non-empty unrecognized value is kept as-is after
    lowercasing. -/
theorem status_normalization (s : Str)
    (hc : ',' ∉ s) (hn : '\n' ∉ s) (hr : '\r' ∉ s) :
    loadTerritories
        (st "territory_id,postcode_prefixes,status" ++ '\n' :: (st "T1,W1," ++ s))
      = .ok
          [{ id := st "T1", region := [], exacts := [st "W1"],
             letterPrefixes := [], anyPrefixes := [],
             pop := some 0, biz := some 0, income := [],
             tokens := [st "W1"],
             status :=
               if jsTrim s = [] then st "available"
               else lowerStr (jsTrim s) }] := by
  have hrown : '\n' ∉ st "T1,W1," ++ s := by
    intro hmem
    rcases List.mem_append.mp hmem with h | h
    · revert h; decide
    · exact hn h
  have hrowr : '\r' ∉ st "T1,W1," ++ s := by
    intro hmem
    rcases List.mem_append.mp hmem with h | h
    · revert h; decide
    · exact hr h
  have hrow6 : st "T1,W1," ++ s ≠ [] := by
    show ('T' :: (st "1,W1," ++ s)) ≠ []
    exact List.cons_ne_nil _ _
  have hlines :=
    nonemptyLines_two (st "territory_id,postcode_prefixes,status")
      (st "T1,W1," ++ s) (by decide) (by decide) (by decide) hrown hrowr hrow6
  unfold loadTerritories
  rw [hlines]
  have e1 :
      idx (headerCols (st "territory_id,postcode_prefixes,status")) idAliases
        = some 0 := by decide
  have e2 :
      idx (headerCols (st "territory_id,postcode_prefixes,status")) regAliases
        = none := by decide
  have e3 :
      idx (headerCols (st "territory_id,postcode_prefixes,status")) pfxAliases
        = some 1 := by decide
  have e4 :
      idx (headerCols (st "territory_id,postcode_prefixes,status")) popAliases
        = none := by decide
  have e5 :
      idx (headerCols (st "territory_id,postcode_prefixes,status")) bizAliases
        = none := by decide
  have e6 :
      idx (headerCols (st "territory_id,postcode_prefixes,status")) incAliases
        = none := by decide
  have e7 :
      idx (headerCols (st "territory_id,postcode_prefixes,status")) statAliases
        = some 2 := by decide
  simp only [e1, e2, e3, e4, e5, e6, e7]
  rw [if_neg (by decide)]
  simp only [List.filterMap_cons, List.filterMap_nil, parseRow_status s hc]

theorem status_normalization_witness :
    loadTerritories
        (st "territory_id,postcode_prefixes,status" ++ '\n'
          :: (st "T1,W1," ++ st "Reserved"))
      = .ok
          [{ id := st "T1", region := [], exacts := [st "W1"],
             letterPrefixes := [], anyPrefixes := [],
             pop := some 0, biz := some 0, income := [],
             tokens := [st "W1"], status := st "reserved" }] := by
  have h := status_normalization (st "Reserved") (by decide) (by decide) (by decide)
  have h2 :
      (if jsTrim (st "Reserved") = [] then st "available"
       else lowerStr (jsTrim (st "Reserved"))) = st "reserved" := by decide
  rw [h2] at h
  exact h

theorem status_unrecognized_counterexample :
    (loadedTerrs
          (loadTerritories
            (st "territory_id,postcode_prefixes,status\nT1,W1,Reserved"))).map
        Terr.status = [st "reserved"]
      ∧ st "reserved" ≠ st "available" :=
  ⟨by decide, by decide⟩

theorem parseRow_pop (s : Str) (hc : ',' ∉ s) :
    parseRow (some 0) none (some 1) (some 2) none none none (st "T1,W1," ++ s)
      = some
          { id := st "T1", region := [], exacts := [st "W1"],
            letterPrefixes := [], anyPrefixes := [],
            pop := jsNumber (jsTrim s), biz := some 0, income := [],
            tokens := [st "W1"], status := st "available" } := by
  have hparts : splitOnChar ',' (st "T1,W1," ++ s) = [st "T1", st "W1", s] := by
    have he : st "T1,W1," ++ s = st "T1" ++ ',' :: (st "W1" ++ ',' :: s) := rfl
    rw [he, splitOnChar_append _ (by decide), splitOnChar_append _ (by decide),
      splitOnChar_of_not_mem hc]
  unfold parseRow
  rw [hparts]
  simp only [getF, List.getD_cons_zero, List.getD_cons_succ]
  have ht1 : jsTrim (st "T1") = st "T1" := by decide
  have hw1 : jsTrim (st "W1") = st "W1" := by decide
  rw [ht1, hw1]
  have hne : ¬(st "T1" = ([] : Str)) := by decide
  rw [if_neg hne]
  have hz : jsTrim ([] : Str) = [] := rfl
  have htok :
      List.filter (fun x => decide (x ≠ []))
          (List.map (fun x => upperStr (jsTrim x))
            (splitOnChar '|' (stripQuotes (st "W1")))) = [st "W1"] := by decide
  rw [hz, htok]
  have hex : exactsOfTokens [st "W1"] = [st "W1"] := by decide
  have hlet2 : letterOfTokens [st "W1"] = [] := by decide
  have hany2 : anyOfTokens [st "W1"] = [] := by decide
  have hnum : jsNumber ([] : Str) = some 0 := by decide
  have hav : lowerStr (st "available") = st "available" := by decide
  simp [hex, hlet2, hany2, hnum, hav]

/-- C4 (amended): the numeric fields are handed to JavaScript Number
    without any character stripping: the loaded population is exactly
    the Number parse of the trimmed field, an empty or absent field
    gives 0, and an unparsable non-empty field (such as one with a
    currency symbol) gives NaN, not 0. -/
theorem numeric_field_parse (s : Str)
    (hc : ',' ∉ s) (hn : '\n' ∉ s) (hr : '\r' ∉ s) :
    (loadTerritories
          (st "territory_id,postcode_prefixes,population" ++ '\n'
            :: (st "T1,W1," ++ s))
        = .ok
            [{ id := st "T1", region := [], exacts := [st "W1"],
               letterPrefixes := [], anyPrefixes := [],
               pop := jsNumber (jsTrim s), biz := some 0, income := [],
               tokens := [st "W1"], status := st "available" }])
      ∧ jsNumber ([] : Str) = some 0
      ∧ jsNumber (st "£45000") = none := by
  refine ⟨?_, by decide, by decide⟩
  have hrown : '\n' ∉ st "T1,W1," ++ s := by
    intro hmem
    rcases List.mem_append.mp hmem with h | h
    · revert h; decide
    · exact hn h
  have hrowr : '\r' ∉ st "T1,W1," ++ s := by
    intro hmem
    rcases List.mem_append.mp hmem with h | h
    · revert h; decide
    · exact hr h
  have hrow6 : st "T1,W1," ++ s ≠ [] := by
    show ('T' :: (st "1,W1," ++ s)) ≠ []
    exact List.cons_ne_nil _ _
  have hlines :=
    nonemptyLines_two (st "territory_id,postcode_prefixes,population")
      (st "T1,W1," ++ s) (by decide) (by decide) (by decide) hrown hrowr hrow6
  unfold loadTerritories
  rw [hlines]
  have e1 :
      idx (headerCols (st "territory_id,postcode_prefixes,population")) idAliases
        = some 0 := by decide
  have e2 :
      idx (headerCols (st "territory_id,postcode_prefixes,population")) regAliases
        = none := by decide
  have e3 :
      idx (headerCols (st "territory_id,postcode_prefixes,population")) pfxAliases
        = some 1 := by decide
  have e4 :
      idx (headerCols (st "territory_id,postcode_prefixes,population")) popAliases
        = some 2 := by decide
  have e5 :
      idx (headerCols (st "territory_id,postcode_prefixes,population")) bizAliases
        = none := by decide
  have e6 :
      idx (headerCols (st "territory_id,postcode_prefixes,population")) incAliases
        = none := by decide
  have e7 :
      idx (headerCols (st "territory_id,postcode_prefixes,population")) statAliases
        = none := by decide
  simp only [e1, e2, e3, e4, e5, e6, e7]
  rw [if_neg (by decide)]
  simp only [List.filterMap_cons, List.filterMap_nil, parseRow_pop s hc]

theorem numeric_field_parse_witness :
    loadTerritories
        (st "territory_id,postcode_prefixes,population" ++ '\n'
          :: (st "T1,W1," ++ st "£45000"))
      = .ok
          [{ id := st "T1", region := [], exacts := [st "W1"],
             letterPrefixes := [], anyPrefixes := [],
             pop := none, biz := some 0, income := [],
             tokens := [st "W1"], status := st "available" }] := by
  have h :=
    (numeric_field_parse (st "£45000") (by decide) (by decide) (by decide)).1
  have h2 : jsNumber (jsTrim (st "£45000")) = none := by decide
  rw [h2] at h
  exact h

theorem numeric_coercion_counterexample :
    (loadedTerrs
          (loadTerritories
            (st "territory_id,postcode_prefixes,population\nT1,W1,£45000"))).map
        Terr.pop = [none]
      ∧ (none : Option ℚ) ≠ some 0 :=
  ⟨by decide, by decide⟩

/-- The token pipeline of main.ts lines 174-175 applied to the raw
    token-list field: strip wrapping quotes, split on the pipe
    separator, trim and uppercase each token, drop empty tokens. -/
def tokensOfField (s : Str) : List Str :=
  ((splitOnChar '|' (stripQuotes (jsTrim s))).map (fun x => upperStr (jsTrim x))).filter
    (fun x => x ≠ [])

/-- Modelled from the spec: split the token-list field on the pipe
    separator, or on the semicolon when the field contains a semicolon
    and no pipe; trim and uppercase each token, drop empty tokens.
    The semicolon branch is absent from main.ts (line 175). -/
def specSplitTokens (s : Str) : List Str :=
  let sep := if ';' ∈ jsTrim s ∧ ¬ ('|' ∈ jsTrim s) then ';' else '|'
  ((splitOnChar sep (stripQuotes (jsTrim s))).map (fun x => upperStr (jsTrim x))).filter
    (fun x => x ≠ [])

theorem parseRow_tokens (s : Str) (hc : ',' ∉ s) :
    parseRow (some 0) none (some 1) none none none none (st "T1," ++ s)
      = some
          { id := st "T1", region := [],
            exacts := exactsOfTokens (tokensOfField s),
            letterPrefixes := letterOfTokens (tokensOfField s),
            anyPrefixes := anyOfTokens (tokensOfField s),
            pop := some 0, biz := some 0, income := [],
            tokens := tokensOfField s, status := st "available" } := by
  have hparts : splitOnChar ',' (st "T1," ++ s) = [st "T1", s] := by
    have he : st "T1," ++ s = st "T1" ++ ',' :: s := rfl
    rw [he, splitOnChar_append _ (by decide), splitOnChar_of_not_mem hc]
  unfold parseRow tokensOfField
  rw [hparts]
  simp only [getF, List.getD_cons_zero, List.getD_cons_succ]
  have ht1 : jsTrim (st "T1") = st "T1" := by decide
  rw [ht1]
  have hne : ¬(st "T1" = ([] : Str)) := by decide
  rw [if_neg hne]
  have hz : jsTrim ([] : Str) = [] := rfl
  have hnum : jsNumber ([] : Str) = some 0 := by decide
  have hav : lowerStr (st "available") = st "available" := by decide
  simp [hz, hnum, hav]

/-- C5 (amended): the token-list field is split on the pipe separator
    only (a semicolon is never treated as a separator), each token is
    trimmed and uppercased, and empty tokens are dropped. -/
theorem token_split_pipe_only (s : Str)
    (hc : ',' ∉ s) (hn : '\n' ∉ s) (hr : '\r' ∉ s) :
    loadTerritories
        (st "territory_id,postcode_prefixes" ++ '\n' :: (st "T1," ++ s))
      = .ok
          [{ id := st "T1", region := [],
             exacts := exactsOfTokens (tokensOfField s),
             letterPrefixes := letterOfTokens (tokensOfField s),
             anyPrefixes := anyOfTokens (tokensOfField s),
             pop := some 0, biz := some 0, income := [],
             tokens := tokensOfField s, status := st "available" }] := by
  have hrown : '\n' ∉ st "T1," ++ s := by
    intro hmem
    rcases List.mem_append.mp hmem with h | h
    · revert h; decide
    · exact hn h
  have hrowr : '\r' ∉ st "T1," ++ s := by
    intro hmem
    rcases List.mem_append.mp hmem with h | h
    · revert h; decide
    · exact hr h
  have hrow6 : st "T1," ++ s ≠ [] := by
    show ('T' :: (st "1," ++ s)) ≠ []
    exact List.cons_ne_nil _ _
  have hlines :=
    nonemptyLines_two (st "territory_id,postcode_prefixes")
      (st "T1," ++ s) (by decide) (by decide) (by decide) hrown hrowr hrow6
  unfold loadTerritories
  rw [hlines]
  have e1 :
      idx (headerCols (st "territory_id,postcode_prefixes")) idAliases
        = some 0 := by decide
  have e2 :
      idx (headerCols (st "territory_id,postcode_prefixes")) regAliases
        = none := by decide
  have e3 :
      idx (headerCols (st "territory_id,postcode_prefixes")) pfxAliases
        = some 1 := by decide
  have e4 :
      idx (headerCols (st "territory_id,postcode_prefixes")) popAliases
        = none := by decide
  have e5 :
      idx (headerCols (st "territory_id,postcode_prefixes")) bizAliases
        = none := by decide
  have e6 :
      idx (headerCols (st "territory_id,postcode_prefixes")) incAliases
        = none := by decide
  have e7 :
      idx (headerCols (st "territory_id,postcode_prefixes")) statAliases
        = none := by decide
  simp only [e1, e2, e3, e4, e5, e6, e7]
  rw [if_neg (by decide)]
  simp only [List.filterMap_cons, List.filterMap_nil, parseRow_tokens s hc]

theorem token_split_pipe_only_witness :
    loadTerritories
        (st "territory_id,postcode_prefixes" ++ '\n'
          :: (st "T1," ++ st "se22 |W1+"))
      = .ok
          [{ id := st "T1", region := [], exacts := [st "SE22"],
             letterPrefixes := [st "W1"], anyPrefixes := [],
             pop := some 0, biz := some 0, income := [],
             tokens := [st "SE22", st "W1+"], status := st "available" }] := by
  have h :=
    token_split_pipe_only (st "se22 |W1+") (by decide) (by decide) (by decide)
  have h1 : tokensOfField (st "se22 |W1+") = [st "SE22", st "W1+"] := by decide
  have h2 : exactsOfTokens [st "SE22", st "W1+"] = [st "SE22"] := by decide
  have h3 : letterOfTokens [st "SE22", st "W1+"] = [st "W1"] := by decide
  have h4 : anyOfTokens [st "SE22", st "W1+"] = [] := by decide
  rw [h1, h2, h3, h4] at h
  exact h

theorem token_split_semicolon_counterexample :
    (loadedTerrs
          (loadTerritories (st "territory_id,postcode_prefixes\nT1,A;B"))).map
        Terr.tokens = [[st "A;B"]]
      ∧ specSplitTokens (st "A;B") = [st "A", st "B"]
      ∧ ([st "A;B"] : List Str) ≠ [st "A", st "B"] :=
  ⟨by decide, by decide, by decide⟩

/-- C6 (amended): field splitting is a plain per-line comma split with
    no quote handling — a quoted field containing a comma is split at
    that comma; no delimiter detection is performed, so a
    semicolon-delimited header lacks the required columns and the load
    fails with the SchemaInvalid outcome; a leading byte-order mark is
    neutralized because every header name and field is trimmed. -/
theorem naive_comma_split :
    (loadedTerrs
          (loadTerritories
            (st "territory_id,postcode_prefixes,region\nT1,W1,\"a,b\""))).map
        Terr.region = [st "\"a"]
      ∧ loadTerritories (st "territory_id;postcode_prefixes\nT1;W1")
          = .schemaInvalid
      ∧ (loadedTerrs
            (loadTerritories
              (st "\uFEFFterritory_id,postcode_prefixes\nT1,W1"))).map
          Terr.id = [st "T1"] :=
  ⟨by decide, by decide, by decide⟩

theorem quoting_counterexample :
    (loadedTerrs
          (loadTerritories
            (st "territory_id,postcode_prefixes,region\nT1,W1,\"a,b\""))).map
        Terr.region = [st "\"a"]
      ∧ st "\"a" ≠ st "a,b" :=
  ⟨by decide, by decide⟩

theorem firstIdx_eq_none {x : Str} {l : List Str} :
    firstIdx x l = none ↔ x ∉ l := by
  induction l with
  | nil => simp [firstIdx]
  | cons y ys ih =>
    by_cases h : y = x
    · simp [firstIdx, h]
    · constructor
      · intro hn hmem
        rcases List.mem_cons.mp hmem with heq | hm
        · exact h heq.symm
        · have hnone : firstIdx x ys = none := by
            cases hf : firstIdx x ys with
            | none => rfl
            | some k =>
              rw [firstIdx, if_neg h, hf] at hn
              cases hn
          exact ih.mp hnone hm
      · intro hn
        rw [firstIdx, if_neg h]
        have hnone : firstIdx x ys = none :=
          ih.mpr (fun hm => hn (List.mem_cons_of_mem _ hm))
        rw [hnone]
        rfl

theorem idx_eq_none {cols names : List Str} :
    idx cols names = none ↔ ∀ n ∈ names, n ∉ cols := by
  unfold idx
  rw [List.findSome?_eq_none_iff]
  constructor
  · intro h n hn
    exact firstIdx_eq_none.mp (h n hn)
  · intro h n hn
    exact firstIdx_eq_none.mpr (h n hn)

theorem parseRow_defaults (iId iReg iPfx iPop iBiz iInc iStat : Option Nat)
    (raw : Str) (t : Terr)
    (h : parseRow iId iReg iPfx iPop iBiz iInc iStat raw = some t) :
    (iReg = none → t.region = [])
      ∧ (iPop = none → t.pop = some 0)
      ∧ (iBiz = none → t.biz = some 0)
      ∧ (iStat = none → t.status = st "available")
      ∧ (iInc = none → iBiz = none → t.income = []) := by
  unfold parseRow at h
  by_cases hid : jsTrim (getF (splitOnChar ',' raw) iId) = []
  · rw [if_pos hid] at h
    cases h
  · rw [if_neg hid] at h
    rw [Option.some.injEq] at h
    subst h
    refine ⟨?_, ?_, ?_, ?_, ?_⟩
    · rintro rfl
      rfl
    · rintro rfl
      rfl
    · rintro rfl
      rfl
    · rintro rfl
      have hz : jsTrim ([] : Str) = [] := rfl
      have hav : lowerStr (st "available") = st "available" := by decide
      simp only [getF, hz]
      by_cases hio :
          (match iInc with
           | some k => jsTrim (joinComma ((splitOnChar ',' raw).drop k))
           | none =>
             match iBiz with
             | some k => jsTrim (joinComma ((splitOnChar ',' raw).drop (k + 1)))
             | none => []) = ([] : Str)
      · simp [hio, hav]
      · simp [hio, hav]
    · rintro rfl rfl
      simp

/-- C8 (amended): a load with at least one usable line fails with the
    SchemaInvalid outcome exactly when the header (under the accepted
    aliases) lacks the identifier column or the token-list column; when
    both are present the load succeeds, and an absent optional column
    defaults to empty or zero — except income, which is only guaranteed
    empty when the business-count column is also absent, because the
    row tail after the business-count column is otherwise folded into
    income. -/
theorem schema_required_columns (text hdr : Str) (rows : List Str)
    (hl : nonemptyLines text = hdr :: rows) :
    (loadTerritories text = .schemaInvalid ↔
        (∀ n ∈ idAliases, n ∉ headerCols hdr)
          ∨ ∀ n ∈ pfxAliases, n ∉ headerCols hdr)
      ∧ ((∃ n ∈ idAliases, n ∈ headerCols hdr) →
          (∃ n ∈ pfxAliases, n ∈ headerCols hdr) →
          ∃ ts, loadTerritories text = .ok ts ∧
            ∀ t ∈ ts,
              (idx (headerCols hdr) regAliases = none → t.region = [])
                ∧ (idx (headerCols hdr) popAliases = none → t.pop = some 0)
                ∧ (idx (headerCols hdr) bizAliases = none → t.biz = some 0)
                ∧ (idx (headerCols hdr) statAliases = none →
                    t.status = st "available")
                ∧ (idx (headerCols hdr) incAliases = none →
                    idx (headerCols hdr) bizAliases = none →
                    t.income = [])) := by
  have hload :
      loadTerritories text =
        if idx (headerCols hdr) idAliases = none
            ∨ idx (headerCols hdr) pfxAliases = none
        then LoadResult.schemaInvalid
        else
          .ok
            (rows.filterMap
              (parseRow (idx (headerCols hdr) idAliases)
                (idx (headerCols hdr) regAliases)
                (idx (headerCols hdr) pfxAliases)
                (idx (headerCols hdr) popAliases)
                (idx (headerCols hdr) bizAliases)
                (idx (headerCols hdr) incAliases)
                (idx (headerCols hdr) statAliases))) := by
    unfold loadTerritories
    rw [hl]
  constructor
  · rw [hload]
    by_cases hcond :
        idx (headerCols hdr) idAliases = none
          ∨ idx (headerCols hdr) pfxAliases = none
    · rw [if_pos hcond]
      constructor
      · intro _
        rcases hcond with h | h
        · exact Or.inl (idx_eq_none.mp h)
        · exact Or.inr (idx_eq_none.mp h)
      · intro _
        rfl
    · rw [if_neg hcond]
      constructor
      · intro h
        exact LoadResult.noConfusion h
      · intro h
        exfalso
        apply hcond
        rcases h with h | h
        · exact Or.inl (idx_eq_none.mpr h)
        · exact Or.inr (idx_eq_none.mpr h)
  · intro hid hpfx
    have h1 : ¬(idx (headerCols hdr) idAliases = none) := fun hno => by
      obtain ⟨n, hn, hm⟩ := hid
      exact idx_eq_none.mp hno n hn hm
    have h2 : ¬(idx (headerCols hdr) pfxAliases = none) := fun hno => by
      obtain ⟨n, hn, hm⟩ := hpfx
      exact idx_eq_none.mp hno n hn hm
    rw [hload, if_neg (by tauto)]
    refine ⟨_, rfl, ?_⟩
    intro t ht
    obtain ⟨row, hrow, hp⟩ := List.mem_filterMap.mp ht
    exact parseRow_defaults _ _ _ _ _ _ _ _ _ hp

theorem schema_required_columns_witness :
    ∃ ts,
      loadTerritories (st "territory_id,postcode_prefixes\nT1,W1") = .ok ts
        ∧ ∀ t ∈ ts,
            (idx (headerCols (st "territory_id,postcode_prefixes")) regAliases
                = none → t.region = [])
              ∧ (idx (headerCols (st "territory_id,postcode_prefixes")) popAliases
                  = none → t.pop = some 0)
              ∧ (idx (headerCols (st "territory_id,postcode_prefixes")) bizAliases
                  = none → t.biz = some 0)
              ∧ (idx (headerCols (st "territory_id,postcode_prefixes")) statAliases
                  = none → t.status = st "available")
              ∧ (idx (headerCols (st "territory_id,postcode_prefixes")) incAliases
                  = none →
                  idx (headerCols (st "territory_id,postcode_prefixes")) bizAliases
                    = none →
                  t.income = []) :=
  (schema_required_columns (st "territory_id,postcode_prefixes\nT1,W1")
      (st "territory_id,postcode_prefixes") [st "T1,W1"] (by decide)).2
    ⟨st "territory_id", by decide, by decide⟩
    ⟨st "postcode_prefixes", by decide, by decide⟩

theorem income_leak_counterexample :
    (loadedTerrs
          (loadTerritories
            (st "territory_id,postcode_prefixes,businesses,region\nT1,W1,100,London"))).map
        Terr.income = [st "London"]
      ∧ st "London" ≠ [] :=
  ⟨by decide, by decide⟩
